import Mathlib

/-!
Verification of the orgparser pipeline (src/main.rs).

The whole program works on Rust strings; we embed them as lists of
characters, `Str := List Char`.  The external crates the program relies on
are embedded from their documented behaviour:

* chrono: `NaiveDateTime::parse_from_str` for the four concrete format
  strings the program uses (a strftime item interpreter over a `Parsed`
  record, completed by a date and time validity check, as chrono does);
* walkdir: depth first traversal with `filter_entry`, whose predicate is
  applied to every entry, the root included, and which prunes the whole
  subtree of a directory the predicate rejects;
* rayon: `par_lines` and parallel collection, which are semantically the
  sequential line iteration (ordering is preserved by rayon collect).

Rust panics are modelled with `Option`: a function that can panic returns
`none` exactly when the original code would panic.
-/

set_option autoImplicit false

abbrev Str := List Char

/-- Error kinds of the chrono parse pipeline, as in chrono
`ParseErrorKind`.  `BadFormat` cannot arise for the fixed well formed
format strings used here and is omitted. -/
inductive ChronoErr where
  | outOfRange
  | impossible
  | notEnough
  | invalid
  | tooShort
  | tooLong
  deriving DecidableEq, Repr

/-- A chrono `NaiveDateTime` value.  For the four formats used by the
program the seconds are never parsed, and chrono defaults them to 0. -/
structure NaiveDateTime where
  year : Int
  month : Nat
  day : Nat
  hour : Nat
  minute : Nat
  second : Nat
  deriving DecidableEq, Repr

/-- The chrono `Parsed` record restricted to the fields the four format
strings of the program can set. -/
structure Parsed where
  year : Option Int
  month : Option Nat
  day : Option Nat
  hour : Option Nat
  minute : Option Nat
  weekday : Option Nat
  deriving DecidableEq, Repr

def initParsed : Parsed := ⟨none, none, none, none, none, none⟩

def isOk {ε α : Type} : Except ε α → Bool
  | .ok _ => true
  | .error _ => false

/-- chrono `trim_start` before numeric items and for `Item::Space`. -/
def skipWs (s : Str) : Str := s.dropWhile Char.isWhitespace

/-- chrono `scan::number`: up to `maxD` leading ascii digits, at least
`minD` of them, returning the value and the rest of the input. -/
def scanNumber (minD maxD : Nat) (s : Str) : Except ChronoErr (Nat × Str) :=
  if s.length < minD then .error .tooShort
  else
    let ds := (s.take maxD).takeWhile Char.isDigit
    if ds.length < minD then .error .invalid
    else .ok (ds.foldl (fun a c => a * 10 + (c.toNat - 48)) 0, s.drop ds.length)

/-- chrono numeric parsing of `%Y`: an explicit sign admits unboundedly
many digits, otherwise at most 4 are taken. -/
def scanSignedYear (s : Str) : Except ChronoErr (Int × Str) :=
  match s with
  | '-' :: t =>
    match scanNumber 1 t.length t with
    | .error e => .error e
    | .ok (v, r) => .ok (-(v : Int), r)
  | '+' :: t =>
    match scanNumber 1 t.length t with
    | .error e => .error e
    | .ok (v, r) => .ok ((v : Int), r)
  | _ =>
    match scanNumber 1 4 s with
    | .error e => .error e
    | .ok (v, r) => .ok ((v : Int), r)

/-- chrono `scan::short_weekday` matching of three characters, ascii case
insensitive (chrono compares the three bytes with bit 0x20 forced, which
on ascii input is exactly the alternatives below).  Weekdays are numbered
as chrono `num_days_from_monday`: Mon = 0, ..., Sun = 6. -/
def weekdayCode (c1 c2 c3 : Char) : Option Nat :=
  if (c1 = 'M' ∨ c1 = 'm') ∧ (c2 = 'O' ∨ c2 = 'o') ∧ (c3 = 'N' ∨ c3 = 'n') then some 0
  else if (c1 = 'T' ∨ c1 = 't') ∧ (c2 = 'U' ∨ c2 = 'u') ∧ (c3 = 'E' ∨ c3 = 'e') then some 1
  else if (c1 = 'W' ∨ c1 = 'w') ∧ (c2 = 'E' ∨ c2 = 'e') ∧ (c3 = 'D' ∨ c3 = 'd') then some 2
  else if (c1 = 'T' ∨ c1 = 't') ∧ (c2 = 'H' ∨ c2 = 'h') ∧ (c3 = 'U' ∨ c3 = 'u') then some 3
  else if (c1 = 'F' ∨ c1 = 'f') ∧ (c2 = 'R' ∨ c2 = 'r') ∧ (c3 = 'I' ∨ c3 = 'i') then some 4
  else if (c1 = 'S' ∨ c1 = 's') ∧ (c2 = 'A' ∨ c2 = 'a') ∧ (c3 = 'T' ∨ c3 = 't') then some 5
  else if (c1 = 'S' ∨ c1 = 's') ∧ (c2 = 'U' ∨ c2 = 'u') ∧ (c3 = 'N' ∨ c3 = 'n') then some 6
  else none

/-- The strftime items occurring in the four format strings of
`parse_date`: literals, whitespace, the numeric specifiers `%Y` `%m` `%d`
`%H` `%M`, and `%a`. -/
inductive FmtItem where
  | lit (c : Char)
  | space
  | numYear
  | numMonth
  | numDay
  | numHour
  | numMinute
  | shortWeekday
  deriving DecidableEq, Repr

def isLeapYear (y : Int) : Bool :=
  (y.emod 4 == 0 && y.emod 100 != 0) || y.emod 400 == 0

def daysInMonth (y : Int) (m : Nat) : Nat :=
  match m with
  | 1 => 31
  | 2 => if isLeapYear y then 29 else 28
  | 3 => 31
  | 4 => 30
  | 5 => 31
  | 6 => 30
  | 7 => 31
  | 8 => 31
  | 9 => 30
  | 10 => 31
  | 11 => 30
  | 12 => 31
  | _ => 0

/-- Validity as checked by chrono `NaiveDate::from_ymd_opt`; the year
bounds are chrono `MIN_YEAR`/`MAX_YEAR`. -/
def fromYmdValid (y : Int) (m d : Nat) : Prop :=
  -262144 ≤ y ∧ y ≤ 262143 ∧ 1 ≤ m ∧ m ≤ 12 ∧ 1 ≤ d ∧ d ≤ daysInMonth y m

instance (y : Int) (m d : Nat) : Decidable (fromYmdValid y m d) := by
  unfold fromYmdValid; infer_instance

/-- Days since 1970-01-01 of a proleptic Gregorian date (the standard
civil from days algorithm). -/
def daysFromCivil (y : Int) (m d : Nat) : Int :=
  let yy : Int := if m ≤ 2 then y - 1 else y
  let era : Int := Int.fdiv yy 400
  let yoe : Int := yy - era * 400
  let mp : Int := Int.emod ((m : Int) + 9) 12
  let doy : Int := Int.fdiv (153 * mp + 2) 5 + (d : Int) - 1
  let doe : Int := yoe * 365 + Int.fdiv yoe 4 - Int.fdiv yoe 100 + doy
  era * 146097 + doe - 719468

/-- Weekday of a date, numbered Mon = 0, ..., Sun = 6 (1970-01-01 was a
Thursday, index 3). -/
def weekdayIdx (y : Int) (m d : Nat) : Int :=
  Int.emod (daysFromCivil y m d + 3) 7

/-- chrono `Parsed::to_naive_time` for our formats: hour and minute must
have been parsed (otherwise `NotEnough`), seconds default to 0. -/
def toTimePart (y : Int) (m d : Nat) (p : Parsed) : Except ChronoErr NaiveDateTime :=
  match p.hour, p.minute with
  | some h, some mi =>
    if h < 24 ∧ mi < 60 then .ok ⟨y, m, d, h, mi, 0⟩ else .error .outOfRange
  | _, _ => .error .notEnough

/-- chrono `Parsed::to_naive_datetime_with_offset`: build the date from
year, month and day, check a parsed weekday for consistency, then require
the time of day. -/
def toNaiveDateTime (p : Parsed) : Except ChronoErr NaiveDateTime :=
  match p.year, p.month, p.day with
  | some y, some m, some d =>
    if fromYmdValid y m d then
      match p.weekday with
      | some w =>
        if weekdayIdx y m d = (w : Int) then toTimePart y m d p else .error .impossible
      | none => toTimePart y m d p
    else .error .outOfRange
  | _, _, _ => .error .notEnough

/-- One step of the chrono format item interpreter (`format::parse`). -/
def runItem : FmtItem → Parsed → Str → Except ChronoErr (Parsed × Str)
  | .lit c, p, s =>
    match s with
    | [] => .error .tooShort
    | c2 :: t => if c2 = c then .ok (p, t) else .error .invalid
  | .space, p, s => .ok (p, skipWs s)
  | .numYear, p, s =>
    match scanSignedYear (skipWs s) with
    | .error e => .error e
    | .ok (v, r) => .ok ({ p with year := some v }, r)
  | .numMonth, p, s =>
    match scanNumber 1 2 (skipWs s) with
    | .error e => .error e
    | .ok (v, r) => .ok ({ p with month := some v }, r)
  | .numDay, p, s =>
    match scanNumber 1 2 (skipWs s) with
    | .error e => .error e
    | .ok (v, r) => .ok ({ p with day := some v }, r)
  | .numHour, p, s =>
    match scanNumber 1 2 (skipWs s) with
    | .error e => .error e
    | .ok (v, r) => .ok ({ p with hour := some v }, r)
  | .numMinute, p, s =>
    match scanNumber 1 2 (skipWs s) with
    | .error e => .error e
    | .ok (v, r) => .ok ({ p with minute := some v }, r)
  | .shortWeekday, p, s =>
    match s with
    | c1 :: c2 :: c3 :: rest =>
      match weekdayCode c1 c2 c3 with
      | some w => .ok ({ p with weekday := some w }, rest)
      | none => .error .invalid
    | _ => .error .tooShort

def runItems : List FmtItem → Parsed → Str → Except ChronoErr (Parsed × Str)
  | [], p, s => .ok (p, s)
  | it :: its, p, s =>
    match runItem it p s with
    | .error e => .error e
    | .ok (p2, s2) => runItems its p2 s2

/-- The shared date prefix `%Y-%m-%d` of all four format strings. -/
def fmtDatePre : List FmtItem :=
  [.numYear, .lit '-', .numMonth, .lit '-', .numDay]

/-- The shared time suffix `%H:%M`. -/
def fmtTime : List FmtItem := [.numHour, .lit ':', .numMinute]

/-- Format 1, `"%Y-%m-%d %a %H:%M"`. -/
def fmtYmdWdHM : List FmtItem :=
  [.numYear, .lit '-', .numMonth, .lit '-', .numDay, .space, .shortWeekday,
   .space, .numHour, .lit ':', .numMinute]

/-- Format 2, `"%Y-%m-%d %a"`. -/
def fmtYmdWd : List FmtItem :=
  [.numYear, .lit '-', .numMonth, .lit '-', .numDay, .space, .shortWeekday]

/-- Format 3, `"%Y-%m-%d %H:%M"`. -/
def fmtYmdHM : List FmtItem :=
  [.numYear, .lit '-', .numMonth, .lit '-', .numDay, .space, .numHour,
   .lit ':', .numMinute]

/-- Format 4, `"%Y-%m-%d"`. -/
def fmtYmd : List FmtItem :=
  [.numYear, .lit '-', .numMonth, .lit '-', .numDay]

/-- chrono `NaiveDateTime::parse_from_str`: run the items, require the
whole input to be consumed (`TooLong` otherwise), then complete the
`Parsed` record. -/
def chronoParse (items : List FmtItem) (tok : Str) : Except ChronoErr NaiveDateTime :=
  match runItems items initParsed tok with
  | .error e => .error e
  | .ok (p, rest) => if rest = [] then toNaiveDateTime p else .error .tooLong

/-- `Todo::find_date`.  Rust `line.split('<')` is indexed at 1, which
panics (modelled as `none`) when the line contains no `<`; the result is
then cut at the first `>` of that segment (`split('>')` is never empty, so
indexing it at 0 cannot panic). -/
def find_date (line : Str) : Option Str :=
  match (line.splitOn '<').get? 1 with
  | none => none
  | some r => some ((r.splitOn '>').headD [])

/-- The body of `Todo::parse_date` on the extracted token: four parse
attempts, then the cascade of `is_ok` tests from the source.  Note that
the first branch returns `formated` (the `%Y-%m-%d` attempt), not the
successful `formated_with_date_and_time`. -/
def parse_date_token (tok : Str) : Except ChronoErr NaiveDateTime :=
  let formated_with_date_and_time := chronoParse fmtYmdWdHM tok
  let formated_with_date := chronoParse fmtYmdWd tok
  let formated_with_time := chronoParse fmtYmdHM tok
  let formated := chronoParse fmtYmd tok
  if isOk formated_with_date_and_time then formated
  else if isOk formated_with_date then formated_with_date
  else if isOk formated_with_time then formated_with_time
  else if isOk formated then formated
  else formated_with_date_and_time

/-- `Todo::parse_date`: extract the token (possibly panicking, see
`find_date`), then run the format cascade.  The `println!` on the failure
path is a side effect with no bearing on the returned value. -/
def parse_date (line : Str) : Option (Except ChronoErr NaiveDateTime) :=
  match find_date line with
  | none => none
  | some tok => some (parse_date_token tok)

/-- The `Todo` struct: a task line and its parsed date. -/
structure Todo where
  item : Str
  date : NaiveDateTime
  deriving DecidableEq, Repr

def todoMarker : Str := "*TODO".toList

def deadlineMarker : Str := "DEADLINE".toList

def scheduledMarker : Str := "SCHEDULED".toList

/-- Rust `str::contains` for a string pattern: some occurrence of `pat`
starts at some position of `l`. -/
def hasSubstr : Str → Str → Bool
  | [], pat => pat.isEmpty
  | l@(_ :: t), pat => pat.isPrefixOf l || hasSubstr t pat

/-- `Todo::filter`: the line contains the task marker and at least one
scheduling marker. -/
def Todo.filter (line : Str) : Bool :=
  hasSubstr line todoMarker &&
    (hasSubstr line deadlineMarker || hasSubstr line scheduledMarker)

/-- Fueled worker for `splitOnPat`; the fuel is always instantiated with
the length of the list, which the recursion never exceeds. -/
def splitOnPatGo (pat : Str) : Nat → Str → List Str
  | _, [] => [[]]
  | 0, l => [l]
  | fuel + 1, c :: t =>
    if pat ≠ [] ∧ pat.isPrefixOf (c :: t) = true then
      [] :: splitOnPatGo pat fuel ((c :: t).drop pat.length)
    else
      match splitOnPatGo pat fuel t with
      | s :: ss => (c :: s) :: ss
      | [] => [[c]]

/-- Rust `str::split` with a string pattern: segments between the
leftmost, non overlapping occurrences of `pat`. -/
def splitOnPat (pat l : Str) : List Str := splitOnPatGo pat l.length l

/-- `Todo::parse_todo`.  `line.split("*TODO")` is indexed at 1, which
panics when the marker is absent; with the marker present, the item text
is the segment after the first occurrence (cut at the next occurrence),
and the parsed date decides between `Some` and `None`. -/
def Todo.parse_todo (line : Str) : Option (Option Todo) :=
  match (splitOnPat todoMarker line).get? 1 with
  | none => none
  | some itm =>
    match parse_date line with
    | none => none
    | some (.error _) => some none
    | some (.ok dt) => some (some ⟨itm, dt⟩)

/-- Drop one trailing carriage return (the `\r\n` case of Rust
`str::lines`). -/
def stripCr (l : Str) : Str :=
  if l.getLast? = some '\r' then l.dropLast else l

/-- Rust `str::lines` (and rayon `par_lines`): split at `'\n'`, a final
line terminator produces no extra empty line, and a `'\r'` immediately
before a `'\n'` is removed. -/
def rustLines (s : Str) : List Str :=
  if s = [] then []
  else
    let parts := s.splitOn '\n'
    if s.getLast? = some '\n' then (parts.dropLast).map stripCr
    else (parts.dropLast).map stripCr ++ [parts.getLastD []]

/-- The map, filter `is_some`, unwrap stages of `iterate_over_file` on the
already classifier filtered lines; `none` propagates a panic of
`parse_todo` on any line. -/
def collectTodos : List Str → Option (List Todo)
  | [] => some []
  | l :: ls =>
    match Todo.parse_todo l with
    | none => none
    | some o =>
      match collectTodos ls with
      | none => none
      | some rs => some (o.toList ++ rs)

/-- `iterate_over_file`: classifier filter, then record building per line,
collected in order (rayon collect preserves order). -/
def iterate_over_file (file : Str) : Option (List Todo) :=
  collectTodos ((rustLines file).filter Todo.filter)

/-- A file system tree: the argument of the scan.  A file carries its
readable content, or `none` when `read_to_string` would fail on it
(permissions, non UTF-8 bytes). -/
inductive FsNode where
  | file (name : Str) (content : Option Str)
  | dir (name : Str) (children : List FsNode)

/-- A walkdir `DirEntry`: the path of the entry (as its components below
the scan root) together with the node it denotes, which supplies
`file_name` and `metadata().is_file()`. -/
structure Entry where
  path : List Str
  node : FsNode

/-- `is_org_file`: a file whose name ends with ".org" (names are valid
UTF-8 in this model, so `to_str` never fails); directories and anything
else answer false. -/
def is_org_file (e : Entry) : Bool :=
  match e.node with
  | .file n _ => ".org".toList.isSuffixOf n
  | .dir _ _ => false

mutual
/-- walkdir depth first traversal with `filter_entry is_org_file`: the
predicate is applied to every entry, the root included; a rejected
directory is pruned together with its whole subtree. -/
def walkNode (pre : List Str) : FsNode → List Entry
  | .file n c =>
    if is_org_file ⟨pre ++ [n], .file n c⟩ then [⟨pre ++ [n], .file n c⟩] else []
  | .dir n cs =>
    if is_org_file ⟨pre ++ [n], .dir n cs⟩ then
      ⟨pre ++ [n], .dir n cs⟩ :: walkForest (pre ++ [n]) cs
    else []
def walkForest (pre : List Str) : List FsNode → List Entry
  | [] => []
  | c :: cs => walkNode pre c ++ walkForest pre cs
end

/-- The scan root: `none` when the root path does not exist or cannot be
read, in which case the walkdir iterator yields a single `Err` item. -/
def walkdir_filter_entry (root : Option FsNode) : List (Except Unit Entry) :=
  match root with
  | none => [.error ()]
  | some n => (walkNode [] n).map .ok

/-- `Result::unwrap` in the `.map(|r| r.unwrap())` stage: panics
(modelled as `none`) on an `Err` item. -/
def unwrap_entry (r : Except Unit Entry) : Option Entry :=
  match r with
  | .ok e => some e
  | .error _ => none

/-- `get_org_entries`: walk, filter_entry, unwrap every item, and keep the
paths. -/
def get_org_entries (root : Option FsNode) : Option (List (List Str)) :=
  match ((walkdir_filter_entry root).mapM unwrap_entry) with
  | none => none
  | some es => some (es.map Entry.path)

/-- `read_to_string` on one yielded entry: the stored content for a
readable file; reading a directory path or an unreadable file fails and
the entry is skipped. -/
def entry_content (e : Entry) : Option Str :=
  match e.node with
  | .file _ c => c
  | .dir _ _ => none

/-- `read_org_files`: contents of the entries yielded by the walk,
silently dropping those whose read fails. -/
def read_org_files (root : Option FsNode) : Option (List Str) :=
  match ((walkdir_filter_entry root).mapM unwrap_entry) with
  | none => none
  | some es => some (es.filterMap entry_content)

/-- `generate_todos`: per file todo lists, flattened.  A panic anywhere in
the pipeline (`none`) propagates. -/
def generate_todos (root : Option FsNode) : Option (List Todo) :=
  match read_org_files root with
  | none => none
  | some files =>
    match files.mapM iterate_over_file with
    | none => none
    | some tvs => some tvs.flatten

/-! ### Helper lemmas -/

theorem isPrefixOf_iff (p l : Str) : p.isPrefixOf l = true ↔ ∃ v, l = p ++ v := by
  induction p generalizing l with
  | nil => simp [List.isPrefixOf]
  | cons a as ih =>
    cases l with
    | nil => simp [List.isPrefixOf]
    | cons b bs =>
      simp only [List.isPrefixOf, Bool.and_eq_true, beq_iff_eq, ih, List.cons_append,
        List.cons.injEq]
      constructor
      · rintro ⟨rfl, v, rfl⟩
        exact ⟨v, rfl, rfl⟩
      · rintro ⟨v, rfl, rfl⟩
        exact ⟨rfl, v, rfl⟩

theorem hasSubstr_iff (l pat : Str) : hasSubstr l pat = true ↔ ∃ u v, l = u ++ pat ++ v := by
  induction l with
  | nil =>
    simp only [hasSubstr, List.isEmpty_iff]
    constructor
    · rintro rfl
      exact ⟨[], [], rfl⟩
    · rintro ⟨u, v, huv⟩
      rcases List.append_eq_nil.mp huv.symm with ⟨h1, h2⟩
      exact (List.append_eq_nil.mp h1).2
  | cons a t ih =>
    simp only [hasSubstr, Bool.or_eq_true, isPrefixOf_iff, ih]
    constructor
    · rintro (⟨v, hv⟩ | ⟨u, v, huv⟩)
      · exact ⟨[], v, by simp [hv]⟩
      · exact ⟨a :: u, v, by simp [huv]⟩
    · rintro ⟨u, v, huv⟩
      cases u with
      | nil => exact Or.inl ⟨v, by simpa using huv⟩
      | cons b u2 =>
        simp only [List.cons_append, List.cons.injEq] at huv
        exact Or.inr ⟨u2, v, huv.2⟩

/-! ### C9: the line classifier -/

/-- Claim C9: `Todo::filter` answers true exactly when the line contains
the substring "*TODO" and at least one of the substrings "DEADLINE" or
"SCHEDULED", regardless of any additional content. -/
theorem filter_iff_contains_markers (l : Str) :
    Todo.filter l = true ↔
      ((∃ u v, l = u ++ todoMarker ++ v) ∧
        ((∃ u v, l = u ++ deadlineMarker ++ v) ∨ (∃ u v, l = u ++ scheduledMarker ++ v))) := by
  simp only [Todo.filter, Bool.and_eq_true, Bool.or_eq_true, hasSubstr_iff]

/-! ### C3, C4, C6: evaluation of the parser at the disputed inputs -/

/-- Claim C3 (code bug): contrary to the no-panic guarantee, a line with
no opening angle bracket makes `find_date` index element 1 of a singleton
split, a panic; the line below passes the classifier, so the panic is
reachable from `iterate_over_file` (both evaluate to the panic value
`none`). -/
theorem parse_date_no_angle_bracket_panics :
    Todo.filter ("*TODO missing date DEADLINE".toList) = true ∧
    parse_date ("*TODO missing date DEADLINE".toList) = none ∧
    iterate_over_file ("*TODO missing date DEADLINE".toList) = none := by
  exact ⟨rfl, rfl, rfl⟩

/-- Claim C4 (code bug): the bare date token "2023-08-08" does not parse:
`NaiveDateTime` parsing of the `%Y-%m-%d` format has no time of day and
fails with NotEnough, so every one of the four attempts fails and
`parse_date` returns the error of attempt 1 (TooShort); the record is
dropped.  The repository test asserts `is_ok` on this very line. -/
theorem parse_date_bare_date_errs :
    find_date ("*TODO this should be good <2023-08-08>".toList) =
      some ("2023-08-08".toList) ∧
    chronoParse fmtYmd ("2023-08-08".toList) = Except.error ChronoErr.notEnough ∧
    parse_date ("*TODO this should be good <2023-08-08>".toList) =
      some (Except.error ChronoErr.tooShort) ∧
    Todo.parse_todo ("*TODO this should be good <2023-08-08>".toList) = some none := by
  exact ⟨rfl, rfl, rfl, rfl⟩

/-- Claim C6 (code bug): on the token "2023-08-08 Tue 10:06" format 1
succeeds (with the time 10:06), but `parse_date` then returns the
`%Y-%m-%d` re-parse of the same token, which fails with TooLong because
" Tue 10:06" is left over; the result is an error, not the date-only
value the spec describes. -/
theorem parse_date_format1_token_errs :
    chronoParse fmtYmdWdHM ("2023-08-08 Tue 10:06".toList) =
      Except.ok ⟨2023, 8, 8, 10, 6, 0⟩ ∧
    parse_date_token ("2023-08-08 Tue 10:06".toList) = Except.error ChronoErr.tooLong := by
  exact ⟨rfl, rfl⟩

theorem runItems_append (xs ys : List FmtItem) (p : Parsed) (s : Str) :
    runItems (xs ++ ys) p s =
      match runItems xs p s with
      | .error e => .error e
      | .ok (p2, s2) => runItems ys p2 s2 := by
  induction xs generalizing p s with
  | nil => simp [runItems]
  | cons it its ih =>
    simp only [List.cons_append, runItems]
    cases runItem it p s with
    | error e => rfl
    | ok ps => exact ih ps.1 ps.2

theorem runItem_hour_eq (it : FmtItem) (p p2 : Parsed) (s s2 : Str)
    (h : runItem it p s = .ok (p2, s2)) (hit : it ≠ FmtItem.numHour) :
    p2.hour = p.hour := by
  cases it with
  | lit c =>
    cases s with
    | nil => exact absurd h (by simp [runItem])
    | cons b t =>
      simp only [runItem] at h
      by_cases hbc : b = c
      · rw [if_pos hbc] at h; cases h; rfl
      · rw [if_neg hbc] at h; cases h
  | space => simp only [runItem] at h; cases h; rfl
  | numYear =>
    simp only [runItem] at h
    cases hsc : scanSignedYear (skipWs s) with
    | error e => rw [hsc] at h; cases h
    | ok vr =>
      obtain ⟨v, r⟩ := vr
      rw [hsc] at h; cases h; rfl
  | numMonth =>
    simp only [runItem] at h
    cases hsc : scanNumber 1 2 (skipWs s) with
    | error e => rw [hsc] at h; cases h
    | ok vr =>
      obtain ⟨v, r⟩ := vr
      rw [hsc] at h; cases h; rfl
  | numDay =>
    simp only [runItem] at h
    cases hsc : scanNumber 1 2 (skipWs s) with
    | error e => rw [hsc] at h; cases h
    | ok vr =>
      obtain ⟨v, r⟩ := vr
      rw [hsc] at h; cases h; rfl
  | numMinute =>
    simp only [runItem] at h
    cases hsc : scanNumber 1 2 (skipWs s) with
    | error e => rw [hsc] at h; cases h
    | ok vr =>
      obtain ⟨v, r⟩ := vr
      rw [hsc] at h; cases h; rfl
  | numHour => exact absurd rfl hit
  | shortWeekday =>
    match s with
    | [] => exact absurd h (by simp [runItem])
    | [c1] => exact absurd h (by simp [runItem])
    | [c1, c2] => exact absurd h (by simp [runItem])
    | c1 :: c2 :: c3 :: r =>
      simp only [runItem] at h
      cases hwc : weekdayCode c1 c2 c3 with
      | none => rw [hwc] at h; cases h
      | some w => rw [hwc] at h; cases h; rfl

theorem runItems_hour_eq (its : List FmtItem) (p p2 : Parsed) (s s2 : Str)
    (h : runItems its p s = .ok (p2, s2)) (hits : ∀ it ∈ its, it ≠ FmtItem.numHour) :
    p2.hour = p.hour := by
  induction its generalizing p s with
  | nil =>
    simp only [runItems, Except.ok.injEq, Prod.mk.injEq] at h
    rw [← h.1]
  | cons it its ih =>
    simp only [runItems] at h
    cases hr : runItem it p s with
    | error e => rw [hr] at h; cases h
    | ok qs =>
      obtain ⟨q, r⟩ := qs
      rw [hr] at h
      have h1 := runItem_hour_eq it p q s r hr (hits it (by simp))
      have h2 := ih q r h (fun i hi => hits i (by simp [hi]))
      rw [h2, h1]

theorem toNaiveDateTime_hour_none (p : Parsed) (hp : p.hour = none) :
    isOk (toNaiveDateTime p) = false := by
  unfold toNaiveDateTime toTimePart
  rw [hp]
  repeat' split
  all_goals simp_all [isOk]

theorem chronoParse_noHour_err (its : List FmtItem) (tok : Str)
    (hits : ∀ it ∈ its, it ≠ FmtItem.numHour) :
    isOk (chronoParse its tok) = false := by
  unfold chronoParse
  cases hr : runItems its initParsed tok with
  | error e => simp [isOk]
  | ok ps =>
    obtain ⟨p, rest⟩ := ps
    have hph : p.hour = none := runItems_hour_eq its initParsed p tok rest hr hits
    show isOk (if rest = [] then toNaiveDateTime p else Except.error ChronoErr.tooLong) = false
    by_cases hrest : rest = []
    · rw [if_pos hrest]
      exact toNaiveDateTime_hour_none p hph
    · rw [if_neg hrest]; simp [isOk]

theorem weekdayCode_head (c1 c2 c3 : Char) (w : Nat)
    (h : weekdayCode c1 c2 c3 = some w) :
    c1.isDigit = false ∧ c1.isWhitespace = false := by
  unfold weekdayCode at h
  split_ifs at h with h1 h2 h3 h4 h5 h6 h7
  · rcases h1.1 with rfl | rfl <;> exact ⟨rfl, rfl⟩
  · rcases h2.1 with rfl | rfl <;> exact ⟨rfl, rfl⟩
  · rcases h3.1 with rfl | rfl <;> exact ⟨rfl, rfl⟩
  · rcases h4.1 with rfl | rfl <;> exact ⟨rfl, rfl⟩
  · rcases h5.1 with rfl | rfl <;> exact ⟨rfl, rfl⟩
  · rcases h6.1 with rfl | rfl <;> exact ⟨rfl, rfl⟩
  · rcases h7.1 with rfl | rfl <;> exact ⟨rfl, rfl⟩

theorem skipWs_cons_not_ws (c : Char) (l : Str) (hc : c.isWhitespace = false) :
    skipWs (c :: l) = c :: l := by
  simp [skipWs, List.dropWhile_cons, hc]

theorem scanNumber_cons_nondigit (c : Char) (l : Str) (maxD : Nat)
    (hc : c.isDigit = false) :
    scanNumber 1 (maxD + 1) (c :: l) = .error .invalid := by
  simp [scanNumber, List.take_succ_cons, List.takeWhile_cons, hc]

theorem scanNumber_one_two_nondigit (c : Char) (l : Str) (hc : c.isDigit = false) :
    scanNumber 1 2 (c :: l) = .error .invalid := by
  have ht : (c :: l).take 2 = c :: l.take 1 := rfl
  simp [scanNumber, ht, List.takeWhile_cons, hc]

theorem fmt1_ok_fmt3_err (tok : Str) (h : isOk (chronoParse fmtYmdWdHM tok) = true) :
    isOk (chronoParse fmtYmdHM tok) = false := by
  unfold chronoParse at h
  cases hr1 : runItems fmtYmdWdHM initParsed tok with
  | error e => rw [hr1] at h; simp [isOk] at h
  | ok ps =>
    obtain ⟨p2, s2⟩ := ps
    have hd1 : fmtYmdWdHM =
        fmtDatePre ++ ([FmtItem.space, FmtItem.shortWeekday] ++ ([FmtItem.space] ++ fmtTime)) := rfl
    rw [hd1, runItems_append] at hr1
    cases hpre : runItems fmtDatePre initParsed tok with
    | error e => rw [hpre] at hr1; cases hr1
    | ok qs =>
      obtain ⟨pa, s0⟩ := qs
      rw [hpre] at hr1
      have hr2 : runItems ([FmtItem.space, FmtItem.shortWeekday] ++ ([FmtItem.space] ++ fmtTime))
          pa s0 = Except.ok (p2, s2) := hr1
      rw [runItems_append] at hr2
      rcases hws : skipWs s0 with _ | ⟨c1, _ | ⟨c2, _ | ⟨c3, r⟩⟩⟩
      · simp [runItems, runItem, hws] at hr2
      · simp [runItems, runItem, hws] at hr2
      · simp [runItems, runItem, hws] at hr2
      · simp only [runItems, runItem, hws] at hr2
        cases hwc : weekdayCode c1 c2 c3 with
        | none => rw [hwc] at hr2; simp at hr2
        | some w =>
          obtain ⟨hdg, hwsf⟩ := weekdayCode_head c1 c2 c3 w hwc
          unfold chronoParse
          have hd3 : fmtYmdHM = fmtDatePre ++ ([FmtItem.space] ++ fmtTime) := rfl
          rw [hd3, runItems_append, hpre]
          simp only [fmtTime, List.cons_append, List.nil_append, runItems, runItem, hws,
            skipWs_cons_not_ws _ _ hwsf, scanNumber_one_two_nondigit _ _ hdg]
          simp [isOk]

/-- Claim C5: across all token strings, the format cascade in
`parse_date` succeeds exactly when the token matches format 3,
`%Y-%m-%d %H:%M`.  Formats 2 and 4 can never produce a `NaiveDateTime`
(no time of day is parsed, chrono answers NotEnough), and when format 1
matches, the returned value is the format 4 re-parse, which fails. -/
theorem parse_date_ok_iff_format3 (tok : Str) :
    isOk (parse_date_token tok) = isOk (chronoParse fmtYmdHM tok) ∧
    isOk (chronoParse fmtYmdWd tok) = false ∧
    isOk (chronoParse fmtYmd tok) = false := by
  have h2 : isOk (chronoParse fmtYmdWd tok) = false :=
    chronoParse_noHour_err fmtYmdWd tok (by decide)
  have h4 : isOk (chronoParse fmtYmd tok) = false :=
    chronoParse_noHour_err fmtYmd tok (by decide)
  refine ⟨?_, h2, h4⟩
  unfold parse_date_token
  by_cases h1 : isOk (chronoParse fmtYmdWdHM tok) = true
  · have h3 := fmt1_ok_fmt3_err tok h1
    simp [h1, h3, h4]
  · simp only [Bool.not_eq_true] at h1
    by_cases h3 : isOk (chronoParse fmtYmdHM tok) = true
    · simp [h1, h2, h3]
    · simp only [Bool.not_eq_true] at h3
      simp [h1, h2, h3, h4]

theorem splitOnPatGo_fuel (pat : Str) (fuel : Nat) :
    ∀ l : Str, l.length ≤ fuel → splitOnPatGo pat fuel l = splitOnPatGo pat l.length l := by
  induction fuel using Nat.strong_induction_on with
  | _ fuel ih =>
    intro l hl
    cases l with
    | nil => cases fuel <;> rfl
    | cons c t =>
      cases fuel with
      | zero => simp at hl
      | succ f =>
        have ht : t.length ≤ f := by simpa using hl
        simp only [List.length_cons, splitOnPatGo]
        by_cases hcond : pat ≠ [] ∧ pat.isPrefixOf (c :: t) = true
        · rw [if_pos hcond, if_pos hcond]
          have hdlen : ((c :: t).drop pat.length).length ≤ t.length := by
            have hplen : 1 ≤ pat.length := List.length_pos.mpr hcond.1
            simp only [List.length_drop, List.length_cons]
            omega
          rw [ih f (Nat.lt_succ_self f) _ (le_trans hdlen ht),
            ih t.length (Nat.lt_succ_of_le ht) _ hdlen]
        · rw [if_neg hcond, if_neg hcond]
          rw [ih f (Nat.lt_succ_self f) t ht, ih t.length (Nat.lt_succ_of_le ht) t le_rfl]

theorem splitOnPat_no_occurrence (pat : Str) :
    ∀ l : Str, (∀ i, i < l.length → pat.isPrefixOf (l.drop i) = false) →
    splitOnPat pat l = [l] := by
  intro l
  induction l with
  | nil => intro hB; rfl
  | cons c t ih =>
    intro hB
    have h0 : pat.isPrefixOf (c :: t) = false := by simpa using hB 0 (by simp)
    unfold splitOnPat
    simp only [List.length_cons, splitOnPatGo]
    rw [if_neg (fun hco => Bool.false_ne_true (h0 ▸ hco.2))]
    have hgo : splitOnPatGo pat t.length t = splitOnPat pat t := rfl
    rw [hgo, ih (fun i hi => by
      simpa [List.drop_succ_cons] using hB (i + 1) (by simpa using hi))]

theorem splitOnPat_marker (pat : Str) (hpat : pat ≠ []) :
    ∀ a b : Str, (∀ i, i < a.length → pat.isPrefixOf (a.drop i ++ pat ++ b) = false) →
    splitOnPat pat (a ++ pat ++ b) = a :: splitOnPat pat b := by
  intro a
  induction a with
  | nil =>
    intro b hA
    simp only [List.nil_append]
    cases pat with
    | nil => exact absurd rfl hpat
    | cons p pt =>
      unfold splitOnPat
      simp only [List.cons_append, List.length_cons, splitOnPatGo, List.append_eq]
      rw [if_pos ⟨List.cons_ne_nil p pt,
        (isPrefixOf_iff (p :: pt) (p :: (pt ++ b))).mpr ⟨b, by simp⟩⟩]
      have hdrop : List.drop (pt.length + 1) (p :: (pt ++ b)) = b := by
        simp only [List.drop_succ_cons, List.drop_left]
      rw [hdrop, splitOnPatGo_fuel (p :: pt) (pt ++ b).length b (by
        simp only [List.length_append]
        omega)]
  | cons c a2 ih =>
    intro b hA
    have h0 : pat.isPrefixOf (c :: (a2 ++ pat ++ b)) = false := by
      simpa using hA 0 (by simp)
    unfold splitOnPat
    simp only [List.cons_append, List.length_cons, splitOnPatGo, List.append_eq]
    rw [if_neg (fun hco => Bool.false_ne_true (h0 ▸ hco.2))]
    have hgo : splitOnPatGo pat (a2 ++ pat ++ b).length (a2 ++ pat ++ b) =
        splitOnPat pat (a2 ++ pat ++ b) := rfl
    rw [hgo, ih b (fun i hi => by
      simpa [List.drop_succ_cons] using hA (i + 1) (by simp only [List.length_cons]; omega))]
    rfl

/-- Claim C10 counterexample: on a line where the marker occurs twice,
the recorded text is the segment between the first and second occurrence,
not everything after the first occurrence. -/
theorem parse_todo_repeated_marker_counterexample :
    Todo.filter ("*TODO a *TODO DEADLINE <2023-08-08 10:10>".toList) = true ∧
    Todo.parse_todo ("*TODO a *TODO DEADLINE <2023-08-08 10:10>".toList) =
      some (some ⟨" a ".toList, ⟨2023, 8, 8, 10, 10, 0⟩⟩) ∧
    (" a ".toList : Str) ≠ " a *TODO DEADLINE <2023-08-08 10:10>".toList := by
  refine ⟨rfl, rfl, ?_⟩
  decide

/-- Claim C10 amended: when the task marker occurs exactly once in the
line (no occurrence starts inside the prefix `a` and none inside the
suffix `b`), the recorded text is everything after the marker. -/
theorem parse_todo_text_single_marker (a b : Str) (dt : NaiveDateTime)
    (hA : ∀ i, i < a.length → todoMarker.isPrefixOf (a.drop i ++ todoMarker ++ b) = false)
    (hB : ∀ i, i < b.length → todoMarker.isPrefixOf (b.drop i) = false)
    (_hf : Todo.filter (a ++ todoMarker ++ b) = true)
    (hd : parse_date (a ++ todoMarker ++ b) = some (.ok dt)) :
    Todo.parse_todo (a ++ todoMarker ++ b) = some (some ⟨b, dt⟩) := by
  have hsplit : splitOnPat todoMarker (a ++ todoMarker ++ b) =
      a :: splitOnPat todoMarker b :=
    splitOnPat_marker todoMarker (by decide) a b hA
  have hb : splitOnPat todoMarker b = [b] := splitOnPat_no_occurrence todoMarker b hB
  unfold Todo.parse_todo
  rw [hsplit, hb, hd]
  rfl

/-- Witness for the amended claim C10 at a concrete single marker line. -/
theorem parse_todo_text_single_marker_witness :
    Todo.parse_todo (([] : Str) ++ todoMarker ++ " x DEADLINE <2023-08-08 10:10>".toList) =
      some (some ⟨" x DEADLINE <2023-08-08 10:10>".toList, ⟨2023, 8, 8, 10, 10, 0⟩⟩) :=
  parse_todo_text_single_marker [] (" x DEADLINE <2023-08-08 10:10>".toList)
    ⟨2023, 8, 8, 10, 10, 0⟩ (by decide) (by decide) rfl rfl

theorem parse_todo_eq_some_iff (l : Str) (t : Todo) :
    Todo.parse_todo l = some (some t) ↔
      ((splitOnPat todoMarker l).get? 1 = some t.item ∧
        parse_date l = some (.ok t.date)) := by
  unfold Todo.parse_todo
  cases hg : (splitOnPat todoMarker l).get? 1 with
  | none => simp
  | some itm =>
    cases hp : parse_date l with
    | none => simp
    | some res =>
      cases res with
      | error e => simp
      | ok dt =>
        constructor
        · intro h
          obtain rfl : Todo.mk itm dt = t := Option.some.inj (Option.some.inj h)
          exact ⟨rfl, rfl⟩
        · rintro ⟨h1, h2⟩
          obtain rfl : itm = t.item := Option.some.inj h1
          have h3 : dt = t.date := Except.ok.inj (Option.some.inj h2)
          rw [h3]

theorem collectTodos_mem (ls : List Str) (res : List Todo) (t : Todo)
    (h : collectTodos ls = some res) :
    t ∈ res ↔ ∃ l, l ∈ ls ∧ Todo.parse_todo l = some (some t) := by
  induction ls generalizing res with
  | nil =>
    simp only [collectTodos, Option.some.injEq] at h
    subst h
    simp
  | cons l ls ih =>
    simp only [collectTodos] at h
    cases hp : Todo.parse_todo l with
    | none => rw [hp] at h; cases h
    | some o =>
      rw [hp] at h
      cases hc : collectTodos ls with
      | none => rw [hc] at h; cases h
      | some rs =>
        rw [hc] at h
        obtain rfl : o.toList ++ rs = res := Option.some.inj h
        simp only [List.mem_append]
        constructor
        · rintro (hto | hin)
          · have ho : o = some t := Option.mem_def.mp (Option.mem_toList.mp hto)
            exact ⟨l, by simp, by rw [hp, ho]⟩
          · obtain ⟨l2, hl2, hpt⟩ := (ih rs hc).mp hin
            exact ⟨l2, by simp [hl2], hpt⟩
        · rintro ⟨l2, hl2, hpt⟩
          rcases List.mem_cons.mp hl2 with rfl | hl2t
          · left
            have ho : o = some t := by rw [hp] at hpt; exact Option.some.inj hpt
            rw [ho]
            simp
          · right
            exact (ih rs hc).mpr ⟨l2, hl2t, hpt⟩

/-- Claim C8: whenever the per file scan returns a collection, a record
is in it exactly when some line of the file passes the classifier, its
text is the split segment after the marker, and the timestamp parser
succeeds on the line with the recorded date. -/
theorem iterate_over_file_mem_iff (file : Str) (res : List Todo) (t : Todo)
    (h : iterate_over_file file = some res) :
    t ∈ res ↔ ∃ l, l ∈ rustLines file ∧ Todo.filter l = true ∧
      (splitOnPat todoMarker l).get? 1 = some t.item ∧
      parse_date l = some (.ok t.date) := by
  unfold iterate_over_file at h
  rw [collectTodos_mem _ res t h]
  constructor
  · rintro ⟨l, hl, hpt⟩
    rw [List.mem_filter] at hl
    obtain ⟨h1, h2⟩ := (parse_todo_eq_some_iff l t).mp hpt
    exact ⟨l, hl.1, hl.2, h1, h2⟩
  · rintro ⟨l, hl, hf, h1, h2⟩
    exact ⟨l, List.mem_filter.mpr ⟨hl, hf⟩, (parse_todo_eq_some_iff l t).mpr ⟨h1, h2⟩⟩

/-- Witness for claim C8 at a concrete one line file. -/
theorem iterate_over_file_mem_iff_witness :
    (Todo.mk (" a DEADLINE <2023-08-08 10:10>".toList) ⟨2023, 8, 8, 10, 10, 0⟩ ∈
      [Todo.mk (" a DEADLINE <2023-08-08 10:10>".toList) ⟨2023, 8, 8, 10, 10, 0⟩]) ↔
    ∃ l, l ∈ rustLines ("*TODO a DEADLINE <2023-08-08 10:10>".toList) ∧
      Todo.filter l = true ∧
      (splitOnPat todoMarker l).get? 1 = some (" a DEADLINE <2023-08-08 10:10>".toList) ∧
      parse_date l = some (.ok ⟨2023, 8, 8, 10, 10, 0⟩) :=
  iterate_over_file_mem_iff ("*TODO a DEADLINE <2023-08-08 10:10>".toList) _ _ rfl

/-- Claim C1 (code bug): for a root directory holding a single org file,
the scanner returns the empty list, because `filter_entry` applies
`is_org_file` to the root directory entry itself, which fails the
predicate and prunes the whole tree; the contract says the file path
should be returned. -/
theorem get_org_entries_drops_all_files :
    get_org_entries (some (FsNode.dir ("org".toList)
      [FsNode.file ("a.org".toList) (some [])])) = some [] := rfl

/-- Claim C2: for every root that is a directory, the scanner output is
empty and therefore `generate_todos` returns the empty collection. -/
theorem get_org_entries_dir_root_empty (n : Str) (cs : List FsNode) :
    get_org_entries (some (FsNode.dir n cs)) = some [] ∧
    generate_todos (some (FsNode.dir n cs)) = some [] :=
  ⟨rfl, rfl⟩

/-- Claim C7 (code bug): when the root path does not exist, the walkdir
iterator yields one `Err` item and the `unwrap` in `get_org_entries`
panics (modelled as `none`), instead of yielding nothing or surfacing an
explicit failure. -/
theorem get_org_entries_missing_root_panics :
    get_org_entries none = none ∧ generate_todos none = none :=
  ⟨rfl, rfl⟩
